import Mathlib

set_option autoImplicit false

/-!
Shallow embedding of the grid-search selector `trainModels` from the notebook
`src/dl.ipynb` (cell 16).  The Python function iterates over
`range(len(hyper))`, instantiates `SVC(**hyper[idx])`, fits it on the fixed
training features/classes, predicts on the fixed validation features, computes
an accuracy, and keeps a `bestModel : Tuple[int, float, SVC] | None` slot that
is replaced exactly when the slot is `None` or `bestModel[1] < accuracy`.
There is no `try`/`except` anywhere in the function, and after the loop it
plainly does `return bestModel`.

The external library calls (SVC construction/fit, predict, accuracy_score) are
modelled as parameters: fitting a configuration on the fixed training set is a
function `fitF : C → Except Unit A` (an `.error` models the exception a fit of
a structurally invalid configuration raises), and scoring a fitted artifact on
the fixed validation set is `scoreF : A → Except Unit ℚ` (an `.error` models
the exception predict raises on structurally mismatched validation data).
Accuracies are rationals: `accuracy_score` is a ratio of counts.
An uncaught exception propagates out of the loop, which the embedding renders
as an `Except` error result; the Python `None` result is `.ok none`.
-/

/-- Errors that can escape `trainModels`, tagged by the call site that raised
them: a fit failure of the configuration at a given index, or a shape failure
while scoring against the validation set. -/
inductive SearchError where
  | configurationError : Nat → SearchError
  | dataShapeError : SearchError
  deriving DecidableEq

/-- The content of the `bestModel` slot: the Python tuple
`(idx, accuracy, svm)` built in `trainModels`. -/
structure Candidate (A : Type) where
  idx : Nat
  accuracy : ℚ
  artifact : A
  deriving DecidableEq

/-- One update of the `bestModel` slot, mirroring
`if bestModel is None: bestModel = (idx, accuracy, svm)` /
`else: if bestModel[1] < accuracy: bestModel = (idx, accuracy, svm)`. -/
def updateBest {A : Type} (best : Option (Candidate A)) (c : Candidate A) :
    Option (Candidate A) :=
  match best with
  | none => some c
  | some b => if b.accuracy < c.accuracy then some c else some b

/-- The fit-then-score step of one loop iteration, as a single observation:
`some (accuracy, artifact)` when both library calls succeed, `none` when
either raises. -/
def evalConfig {C A : Type} (fitF : C → Except Unit A) (scoreF : A → Except Unit ℚ)
    (c : C) : Option (ℚ × A) :=
  match fitF c with
  | .error _ => none
  | .ok a =>
    match scoreF a with
    | .error _ => none
    | .ok q => some (q, a)

/-- The `for idx in range(hyper.__len__())` loop of `trainModels`: fit the
configuration (an uncaught exception aborts the whole call), score it (ditto),
then update the `bestModel` slot.  `idx` is the index of the head of the
remaining grid. -/
def trainModelsAux {C A : Type} (fitF : C → Except Unit A) (scoreF : A → Except Unit ℚ) :
    List C → Nat → Option (Candidate A) → Except SearchError (Option (Candidate A))
  | [], _, best => .ok best
  | c :: rest, idx, best =>
    match fitF c with
    | .error _ => .error (.configurationError idx)
    | .ok a =>
      match scoreF a with
      | .error _ => .error .dataShapeError
      | .ok q => trainModelsAux fitF scoreF rest (idx + 1) (updateBest best ⟨idx, q, a⟩)

/-- `trainModels` from `src/dl.ipynb`: run the loop over the expanded grid with
the slot initialized to `None`, and `return bestModel` at the end (so an empty
grid yields `.ok none`, the Python `None`). -/
def trainModels {C A : Type} (fitF : C → Except Unit A) (scoreF : A → Except Unit ℚ)
    (grid : List C) : Except SearchError (Option (Candidate A)) :=
  trainModelsAux fitF scoreF grid 0 none

/-- An observable call made by the loop body: a fit of, or a scoring of, the
configuration at a given index. -/
inductive Event where
  | fitCall : Nat → Event
  | scoreCall : Nat → Event
  deriving DecidableEq

/-- Instrumented copy of `trainModelsAux` that additionally logs, in order, the
fit and score calls the loop performs.  The result component coincides with
`trainModelsAux` (proved below). -/
def trainModelsAuxT {C A : Type} (fitF : C → Except Unit A) (scoreF : A → Except Unit ℚ) :
    List C → Nat → Option (Candidate A) →
      List Event × Except SearchError (Option (Candidate A))
  | [], _, best => ([], .ok best)
  | c :: rest, idx, best =>
    match fitF c with
    | .error _ => ([.fitCall idx], .error (.configurationError idx))
    | .ok a =>
      match scoreF a with
      | .error _ => ([.fitCall idx, .scoreCall idx], .error .dataShapeError)
      | .ok q =>
        let p := trainModelsAuxT fitF scoreF rest (idx + 1) (updateBest best ⟨idx, q, a⟩)
        (.fitCall idx :: .scoreCall idx :: p.1, p.2)

/-- Instrumented `trainModels`. -/
def trainModelsT {C A : Type} (fitF : C → Except Unit A) (scoreF : A → Except Unit ℚ)
    (grid : List C) : List Event × Except SearchError (Option (Candidate A)) :=
  trainModelsAuxT fitF scoreF grid 0 none

/-- Scoring against the validation set per the documented library contract:
predicting with validation features whose dimensionality differs from the
training dimensionality raises (the `DataShapeError` trigger); otherwise the
scalar accuracy of the artifact is produced. -/
def predictScore {A : Type} (trainDim valDim : Nat) (rawAccuracy : A → ℚ) (a : A) :
    Except Unit ℚ :=
  if valDim = trainDim then .ok (rawAccuracy a) else .error ()

/-- Pure specification of the loop on a fully successful run: fold the slot
update over the list of observed (accuracy, artifact) pairs. -/
def foldBest {A : Type} : List (ℚ × A) → Nat → Option (Candidate A) → Option (Candidate A)
  | [], _, best => best
  | p :: rest, idx, best => foldBest rest (idx + 1) (updateBest best ⟨idx, p.1, p.2⟩)

/-- A dataframe, reduced to its grid of numeric cells (rows of rationals);
the class column is kept as the last column. -/
structure Frame where
  rows : List (List ℚ)
  deriving DecidableEq

/-- The pandas `DataFrame.drop` call as used in `trainModels`
(`drop(labels = class, axis = 1, inplace = False)`), per the documented
library contract: the pair holds the returned reduced frame and the value of
the receiver frame after the call, which is mutated exactly when the flag is
set.  The source passes the flag as `False`. -/
def dropClassColumn (f : Frame) (mutateInPlace : Bool) : Frame × Frame :=
  (⟨f.rows.map List.dropLast⟩, if mutateInPlace then ⟨f.rows.map List.dropLast⟩ else f)

/-- The notebook state `trainModels` reads: the training and validation
dataframes it closes over. -/
structure NotebookData where
  trainingDF : Frame
  validationDF : Frame
  deriving DecidableEq

/-- State-passing rendering of `trainModels`: the feature extraction at the top
of the function calls `drop` on each dataframe with `inplace = False` exactly as
the source does, then runs the search loop; the second component is the notebook
state after the call.  The fit and score calls receive the extracted feature
frames and are pure per the library contract (they do not write to their
inputs). -/
def trainModelsSt {C A : Type} (fitF : Frame → C → Except Unit A)
    (scoreF : Frame → A → Except Unit ℚ) (grid : List C) (st : NotebookData) :
    Except SearchError (Option (Candidate A)) × NotebookData :=
  let fr := dropClassColumn st.trainingDF false
  let st1 : NotebookData := { st with trainingDF := fr.2 }
  let vr := dropClassColumn st1.validationDF false
  let st2 : NotebookData := { st1 with validationDF := vr.2 }
  (trainModelsAux (fitF fr.1) (scoreF vr.1) grid 0 none, st2)

/-- Concrete fit used for closed instances: every configuration (a rational)
fits, and the artifact is the configuration itself. -/
def exFit (c : ℚ) : Except Unit ℚ := .ok c

/-- Concrete score used for closed instances: the accuracy of an artifact is
the artifact itself. -/
def exScore (a : ℚ) : Except Unit ℚ := .ok a

/-- Concrete fit in which the configuration with value 2 raises at fit time
and every other configuration fits. -/
def exFitFailAt2 (c : ℚ) : Except Unit ℚ := if c = 2 then .error () else .ok c

/-- Concrete score for the spec's worked example: the configuration with
value 1/10 scores 0.80 and the other one 0.92. -/
def exampleScore (a : ℚ) : Except Unit ℚ :=
  .ok (if a = 1 / 10 then 4 / 5 else 23 / 25)

theorem updateBest_isSome {A : Type} (best : Option (Candidate A)) (c : Candidate A) :
    (updateBest best c).isSome := by
  cases best with
  | none => simp [updateBest]
  | some b =>
    simp only [updateBest]
    split <;> simp

theorem accuracy_le_updateBest {A : Type} (best : Option (Candidate A))
    (c b' : Candidate A) (h : updateBest best c = some b') :
    c.accuracy ≤ b'.accuracy := by
  cases best with
  | none =>
    simp only [updateBest] at h
    cases h
    exact le_refl _
  | some b =>
    simp only [updateBest] at h
    split at h
    next => cases h; exact le_refl _
    next hlt => cases h; exact not_lt.mp hlt

theorem old_accuracy_le_updateBest {A : Type} (b c b' : Candidate A)
    (h : updateBest (some b) c = some b') : b.accuracy ≤ b'.accuracy := by
  simp only [updateBest] at h
  split at h
  next hlt => cases h; exact le_of_lt hlt
  next => cases h; exact le_refl _

deriving instance DecidableEq for Except

theorem trainModelsAux_ok {C A : Type} (fitF : C → Except Unit A) (scoreF : A → Except Unit ℚ)
    (grid : List C) (idx : Nat) (best r : Option (Candidate A))
    (h : trainModelsAux fitF scoreF grid idx best = .ok r) :
    ∃ qs : List (ℚ × A), grid.map (evalConfig fitF scoreF) = qs.map some ∧
      r = foldBest qs idx best := by
  induction grid generalizing idx best with
  | nil =>
    simp only [trainModelsAux] at h
    cases h
    exact ⟨[], rfl, rfl⟩
  | cons c rest ih =>
    cases hf : fitF c with
    | error e => simp [trainModelsAux, hf] at h
    | ok a =>
      cases hs : scoreF a with
      | error e => simp [trainModelsAux, hf, hs] at h
      | ok q =>
        simp only [trainModelsAux, hf, hs] at h
        obtain ⟨qs, hmap, hfold⟩ := ih _ _ h
        refine ⟨(q, a) :: qs, ?_, hfold⟩
        simp [evalConfig, hf, hs, hmap]

theorem foldBest_spec {A : Type} (qs : List (ℚ × A)) (idx : Nat)
    (best : Option (Candidate A)) (b : Candidate A)
    (h : foldBest qs idx best = some b) :
    (∀ p ∈ qs, p.1 ≤ b.accuracy) ∧
      (best = some b ∨
        ∃ k, ∃ hk : k < qs.length, b.idx = idx + k ∧ qs[k].1 = b.accuracy ∧
          qs[k].2 = b.artifact ∧
          (∀ b0, best = some b0 → b0.accuracy < b.accuracy) ∧
          ∀ j, ∀ hj : j < k, qs[j].1 < b.accuracy) := by
  induction qs generalizing idx best with
  | nil =>
    simp only [foldBest] at h
    exact ⟨by simp, Or.inl h⟩
  | cons p rest ih =>
    simp only [foldBest] at h
    obtain ⟨hall, hcase⟩ := ih _ _ h
    obtain ⟨b1, hb1⟩ := Option.isSome_iff_exists.mp
      (updateBest_isSome best ⟨idx, p.1, p.2⟩)
    have hb1le : p.1 ≤ b1.accuracy := accuracy_le_updateBest _ _ _ hb1
    have hple : p.1 ≤ b.accuracy := by
      rcases hcase with hbest | ⟨k, hk, _, _, _, himpr, _⟩
      · exact accuracy_le_updateBest _ _ _ hbest
      · exact le_trans hb1le (le_of_lt (himpr b1 hb1))
    refine ⟨?_, ?_⟩
    · intro p' hp'
      rcases List.mem_cons.mp hp' with rfl | hmem
      · exact hple
      · exact hall p' hmem
    · rcases hcase with hbest | ⟨k, hk, hidx, hacc, hart, himpr, hprev⟩
      · cases best with
        | none =>
          simp only [updateBest] at hbest
          have hb := Option.some.inj hbest
          refine Or.inr ⟨0, by simp, ?_, ?_, ?_, ?_, ?_⟩
          · rw [← hb]; simp
          · rw [← hb]; simp
          · rw [← hb]; simp
          · intro b0 h0; cases h0
          · intro j hj; omega
        | some bb =>
          simp only [updateBest] at hbest
          split at hbest
          next hlt =>
            have hb := Option.some.inj hbest
            refine Or.inr ⟨0, by simp, ?_, ?_, ?_, ?_, ?_⟩
            · rw [← hb]; simp
            · rw [← hb]; simp
            · rw [← hb]; simp
            · intro b0 h0
              cases Option.some.inj h0
              rw [← hb]
              exact hlt
            · intro j hj; omega
          next =>
            exact Or.inl hbest
      · refine Or.inr ⟨k + 1, by simp; omega, ?_, ?_, ?_, ?_, ?_⟩
        · omega
        · simpa using hacc
        · simpa using hart
        · intro b0 h0
          have hle : b0.accuracy ≤ b1.accuracy :=
            old_accuracy_le_updateBest b0 ⟨idx, p.1, p.2⟩ b1 (h0 ▸ hb1)
          exact lt_of_le_of_lt hle (himpr b1 hb1)
        · intro j hj
          cases j with
          | zero =>
            simpa using lt_of_le_of_lt hb1le (himpr b1 hb1)
          | succ jj =>
            simpa using hprev jj (by omega)

theorem trainModelsAuxT_snd {C A : Type} (fitF : C → Except Unit A)
    (scoreF : A → Except Unit ℚ) (grid : List C) (idx : Nat)
    (best : Option (Candidate A)) :
    (trainModelsAuxT fitF scoreF grid idx best).2 =
      trainModelsAux fitF scoreF grid idx best := by
  induction grid generalizing idx best with
  | nil => rfl
  | cons c rest ih =>
    cases hf : fitF c with
    | error e => simp [trainModelsAuxT, trainModelsAux, hf]
    | ok a =>
      cases hs : scoreF a with
      | error e => simp [trainModelsAuxT, trainModelsAux, hf, hs]
      | ok q => simp [trainModelsAuxT, trainModelsAux, hf, hs, ih]

theorem trainModelsAuxT_trace {C A : Type} (fitF : C → Except Unit A)
    (scoreF : A → Except Unit ℚ) (grid : List C) (idx : Nat)
    (best : Option (Candidate A))
    (hok : ∀ c ∈ grid, (evalConfig fitF scoreF c).isSome) :
    (trainModelsAuxT fitF scoreF grid idx best).1 =
      (List.range' idx grid.length).flatMap fun i => [Event.fitCall i, Event.scoreCall i] := by
  induction grid generalizing idx best with
  | nil => simp [trainModelsAuxT]
  | cons c rest ih =>
    have hc := hok c (List.mem_cons_self c rest)
    cases hf : fitF c with
    | error e => simp [evalConfig, hf] at hc
    | ok a =>
      cases hs : scoreF a with
      | error e => simp [evalConfig, hf, hs] at hc
      | ok q =>
        have hrest : ∀ x ∈ rest, (evalConfig fitF scoreF x).isSome :=
          fun x hx => hok x (List.mem_cons_of_mem c hx)
        simp [trainModelsAuxT, hf, hs, List.range', ih _ _ hrest]

theorem trainModelsAux_ok_isSome {C A : Type} (fitF : C → Except Unit A)
    (scoreF : A → Except Unit ℚ) (grid : List C) (idx : Nat)
    (best r : Option (Candidate A)) (hb : best.isSome)
    (h : trainModelsAux fitF scoreF grid idx best = .ok r) : r.isSome := by
  induction grid generalizing idx best with
  | nil =>
    simp only [trainModelsAux] at h
    cases h
    exact hb
  | cons c rest ih =>
    cases hf : fitF c with
    | error e => simp [trainModelsAux, hf] at h
    | ok a =>
      cases hs : scoreF a with
      | error e => simp [trainModelsAux, hf, hs] at h
      | ok q =>
        simp only [trainModelsAux, hf, hs] at h
        exact ih _ _ (updateBest_isSome best ⟨idx, q, a⟩) h

theorem trainModelsAux_fit_failure {C A : Type} (fitF : C → Except Unit A)
    (scoreF : A → Except Unit ℚ) (grid : List C) (idx : Nat)
    (best : Option (Candidate A)) (i : Nat) (hi : i < grid.length)
    (hpre : ∀ j, ∀ hj : j < i, (evalConfig fitF scoreF grid[j]).isSome)
    (hfail : fitF grid[i] = .error ()) :
    trainModelsAux fitF scoreF grid idx best = .error (.configurationError (idx + i)) := by
  induction grid generalizing idx best i with
  | nil => simp at hi
  | cons c rest ih =>
    cases i with
    | zero =>
      have hf : fitF c = .error () := hfail
      simp [trainModelsAux, hf]
    | succ ii =>
      have h0 := hpre 0 (Nat.succ_pos ii)
      simp only [List.getElem_cons_zero] at h0
      cases hf : fitF c with
      | error e => simp [evalConfig, hf] at h0
      | ok a =>
        cases hs : scoreF a with
        | error e => simp [evalConfig, hf, hs] at h0
        | ok q =>
          simp only [trainModelsAux, hf, hs]
          have hstep := ih (idx + 1) (updateBest best ⟨idx, q, a⟩) ii
            (by simp only [List.length_cons] at hi; omega)
            (by
              intro j hj
              have := hpre (j + 1) (by omega)
              simpa using this)
            (by simpa using hfail)
          rw [show idx + (ii + 1) = idx + 1 + ii by omega]
          exact hstep

/-- Claim C1: whenever `trainModels` returns a best candidate (the only way an
accuracy is returned to the caller; when any configuration's evaluation raises,
the function raises instead and returns nothing), the returned accuracy is
greater than or equal to the validation accuracy of every individually
evaluated configuration of the grid.  The hypothesis `.ok (some b)` subsumes
the claim's preconditions: it forces the grid to be non-empty and every (hence
at least one) configuration to have been evaluated successfully. -/
theorem trainModels_returns_max_accuracy {C A : Type} (fitF : C → Except Unit A)
    (scoreF : A → Except Unit ℚ) (grid : List C) (b : Candidate A)
    (h : trainModels fitF scoreF grid = .ok (some b)) :
    ∀ c ∈ grid, ∀ q a, evalConfig fitF scoreF c = some (q, a) → q ≤ b.accuracy := by
  obtain ⟨qs, hmap, hfold⟩ := trainModelsAux_ok fitF scoreF grid 0 none (some b) h
  intro c hc q a hq
  have hmem : evalConfig fitF scoreF c ∈ qs.map some := by
    rw [← hmap]
    exact List.mem_map_of_mem _ hc
  rw [hq] at hmem
  obtain ⟨p, hp, hps⟩ := List.mem_map.mp hmem
  cases Option.some.inj hps
  exact (foldBest_spec qs 0 none b hfold.symm).1 (q, a) hp

theorem trainModels_returns_max_accuracy_witness :
    (1 : ℚ) ≤ (⟨1, 2, 2⟩ : Candidate ℚ).accuracy :=
  trainModels_returns_max_accuracy exFit exScore [1, 2] ⟨1, 2, 2⟩ (by decide)
    1 (by decide) 1 1 (by decide)

/-- Claim C2 counterexample: in the grid with configuration values 1, 2, 3
under a fit that raises exactly on the value 2, the source aborts the whole
search with the index-1 fit failure.  It does not skip the bad configuration,
does not continue to index 2, and selects nothing, contradicting the claimed
local recovery (which would return the index-2 candidate with accuracy 3). -/
theorem trainModels_fit_failure_not_recovered_cex :
    trainModels exFitFailAt2 exScore [1, 2, 3] = .error (.configurationError 1) := by
  decide

/-- Claim C2 amended: a configuration whose fit fails is not recovered; the
failure aborts the entire search at that configuration.  If every
configuration before index i evaluates successfully and the fit of the
configuration at index i raises, `trainModels` propagates that error to the
caller: no candidate is recorded for any configuration, and the
configurations after index i are never evaluated. -/
theorem trainModels_fit_failure_aborts {C A : Type} (fitF : C → Except Unit A)
    (scoreF : A → Except Unit ℚ) (grid : List C) (i : Nat) (hi : i < grid.length)
    (hpre : ∀ j, ∀ hj : j < i, (evalConfig fitF scoreF grid[j]).isSome)
    (hfail : fitF grid[i] = .error ()) :
    trainModels fitF scoreF grid = .error (.configurationError i) := by
  have hstep := trainModelsAux_fit_failure fitF scoreF grid 0 none i hi hpre hfail
  simpa using hstep

theorem trainModels_fit_failure_aborts_witness :
    trainModels exFitFailAt2 exScore [5, 2] = .error (.configurationError 1) :=
  trainModels_fit_failure_aborts exFitFailAt2 exScore [5, 2] 1 (by decide)
    (by
      intro j hj
      have hj0 : j = 0 := by omega
      subst hj0
      show (evalConfig exFitFailAt2 exScore 5).isSome = true
      decide)
    (by decide)

/-- Claim C3 counterexample: on the empty grid the source's loop never runs,
so it plainly returns its still-None `bestModel`; no `EmptyGridError` (nor any
other error) is raised by `trainModels`. -/
theorem trainModels_empty_grid_cex :
    trainModels exFit exScore ([] : List ℚ) = .ok none := rfl

/-- Claim C3 amended: if the grid expands to zero configurations,
`trainModels` returns the Python value None (here `.ok none`): it raises no
error, and no candidate (in particular no partial result) is returned.  The
unpacking at the call site would subsequently fail, but `trainModels` itself
surfaces no `EmptyGridError`. -/
theorem trainModels_empty_grid_returns_none {C A : Type} (fitF : C → Except Unit A)
    (scoreF : A → Except Unit ℚ) :
    trainModels fitF scoreF ([] : List C) = .ok none := rfl

theorem trainModels_pointwise {C A : Type} (fitF : C → Except Unit A)
    (scoreF : A → Except Unit ℚ) (grid : List C) (qs : List (ℚ × A))
    (hmap : grid.map (evalConfig fitF scoreF) = qs.map some)
    (k : Nat) (hk : k < grid.length) (hk2 : k < qs.length) :
    evalConfig fitF scoreF grid[k] = some qs[k] := by
  have h1 : (grid.map (evalConfig fitF scoreF))[k]? = (qs.map some)[k]? := by rw [hmap]
  rw [List.getElem?_map, List.getElem?_map, List.getElem?_eq_getElem hk,
    List.getElem?_eq_getElem hk2] at h1
  simpa using h1

/-- Claim C4: first-seen-wins tie-break.  If the configurations at positions
i < j both evaluate to the same, maximal, validation accuracy, then the
candidate `trainModels` returns has that accuracy and its index is at most i:
it is the earliest configuration attaining the maximum, so the later tied
configuration at j is never returned in favour of an earlier one.  This is
forced by the strict comparison `bestModel[1] < accuracy` in the source. -/
theorem trainModels_tie_first_seen {C A : Type} (fitF : C → Except Unit A)
    (scoreF : A → Except Unit ℚ) (grid : List C) (b : Candidate A) (i j : Nat)
    (hij : i < j) (hj : j < grid.length) (qi : ℚ) (ai : A) (qj : ℚ) (aj : A)
    (hqi : evalConfig fitF scoreF grid[i] = some (qi, ai))
    (hqj : evalConfig fitF scoreF grid[j] = some (qj, aj))
    (htie : qi = qj)
    (hmax : ∀ k, ∀ hk : k < grid.length, ∀ q a,
      evalConfig fitF scoreF grid[k] = some (q, a) → q ≤ qi)
    (h : trainModels fitF scoreF grid = .ok (some b)) :
    b.idx ≤ i ∧ b.accuracy = qi := by
  obtain ⟨qs, hmap, hfold⟩ := trainModelsAux_ok fitF scoreF grid 0 none (some b) h
  have hlen : qs.length = grid.length := by
    have hl := congrArg List.length hmap
    simpa using hl.symm
  obtain ⟨hall, hcase⟩ := foldBest_spec qs 0 none b hfold.symm
  rcases hcase with hnone | ⟨k, hk, hidx, hacc, hart, _, hprev⟩
  · cases hnone
  · have hkg : k < grid.length := by omega
    have hik : i < qs.length := by omega
    have hqsi : qs.get ⟨i, hik⟩ = (qi, ai) := by
      have h1 := trainModels_pointwise fitF scoreF grid qs hmap i (by omega) hik
      rw [hqi] at h1
      exact (Option.some.inj h1).symm
    have hub : b.accuracy ≤ qi := by
      have h2 := trainModels_pointwise fitF scoreF grid qs hmap k hkg hk
      have h3 := hmax k hkg (qs.get ⟨k, hk⟩).1 (qs.get ⟨k, hk⟩).2 h2
      rw [← hacc]
      exact h3
    have hlb : qi ≤ b.accuracy := by
      have h4 := hall (qs.get ⟨i, hik⟩) (List.get_mem qs i hik)
      rw [hqsi] at h4
      exact h4
    have hbe : b.accuracy = qi := le_antisymm hub hlb
    have hki : ¬ i < k := by
      intro hik2
      have h5 := hprev i hik2
      rw [show qs[i] = qs.get ⟨i, hik⟩ from rfl, hqsi] at h5
      rw [hbe] at h5
      exact lt_irrefl qi h5
    exact ⟨by omega, hbe⟩

theorem trainModels_tie_first_seen_witness :
    (⟨1, 2, 2⟩ : Candidate ℚ).idx ≤ 1 ∧ (⟨1, 2, 2⟩ : Candidate ℚ).accuracy = 2 :=
  trainModels_tie_first_seen exFit exScore [1, 2, 2] ⟨1, 2, 2⟩ 1 2 (by decide)
    (by decide) 2 2 2 2 (by decide) (by decide) rfl
    (by
      intro k hk q a hq
      have hk3 : k < 3 := by simpa using hk
      interval_cases k <;>
        · simp only [evalConfig, exFit, exScore] at hq
          obtain ⟨hq1, hq2⟩ := Prod.mk.injEq .. ▸ Option.some.inj hq
          rw [← hq1]
          norm_num)
    (by decide)

/-- Claim C5: the `bestModel` slot protocol.  `trainModels` starts the loop
with the slot empty; the slot update replaces an empty slot, replaces a full
slot exactly when the new accuracy is strictly higher, and keeps the old
candidate otherwise; consequently the stored accuracy never decreases across
an update. -/
theorem bestModel_slot_invariant {C A : Type} (fitF : C → Except Unit A)
    (scoreF : A → Except Unit ℚ) (grid : List C) :
    trainModels fitF scoreF grid = trainModelsAux fitF scoreF grid 0 none ∧
      (∀ c : Candidate A, updateBest none c = some c) ∧
      (∀ b c : Candidate A, b.accuracy < c.accuracy → updateBest (some b) c = some c) ∧
      (∀ b c : Candidate A, ¬ b.accuracy < c.accuracy → updateBest (some b) c = some b) ∧
      ∀ (best : Option (Candidate A)) (c b' : Candidate A), updateBest best c = some b' →
        ∀ b0, best = some b0 → b0.accuracy ≤ b'.accuracy := by
  refine ⟨rfl, fun c => rfl, ?_, ?_, ?_⟩
  · intro b c hlt
    simp [updateBest, hlt]
  · intro b c hnlt
    simp [updateBest, hnlt]
  · intro best c b' hup b0 hbest
    subst hbest
    exact old_accuracy_le_updateBest b0 c b' hup

theorem bestModel_slot_invariant_witness :
    updateBest (some ⟨0, (2 : ℚ), (0 : ℚ)⟩) ⟨1, 1, 0⟩ = some ⟨0, 2, 0⟩ :=
  (bestModel_slot_invariant exFit exScore []).2.2.2.1 ⟨0, 2, 0⟩ ⟨1, 1, 0⟩ (by norm_num)

/-- Claim C6: with validation features whose dimensionality differs from the
training dimensionality, scoring raises per the library contract; the search
then fails at the very first configuration with a `DataShapeError` that
propagates unrecovered to the caller, and no configuration is evaluated: no
accuracy is ever computed, no candidate is ever recorded, and the trace shows
only the first configuration's fit and its failing score call before the
abort. -/
theorem trainModels_shape_mismatch_aborts {C A : Type} (fitF : C → Except Unit A)
    (trainDim valDim : Nat) (rawAccuracy : A → ℚ) (c : C) (rest : List C) (a : A)
    (hfit : fitF c = .ok a) (hdim : valDim ≠ trainDim) :
    trainModels fitF (predictScore trainDim valDim rawAccuracy) (c :: rest) =
        .error .dataShapeError ∧
      (trainModelsT fitF (predictScore trainDim valDim rawAccuracy) (c :: rest)).1 =
        [Event.fitCall 0, Event.scoreCall 0] := by
  constructor
  · simp [trainModels, trainModelsAux, hfit, predictScore, hdim]
  · simp [trainModelsT, trainModelsAuxT, hfit, predictScore, hdim]

theorem trainModels_shape_mismatch_aborts_witness :
    trainModels exFit (predictScore 13 12 id) [(1 : ℚ)] = .error .dataShapeError ∧
      (trainModelsT exFit (predictScore 13 12 id) [(1 : ℚ)]).1 =
        [Event.fitCall 0, Event.scoreCall 0] :=
  trainModels_shape_mismatch_aborts exFit 13 12 id 1 [] 1 rfl (by decide)

/-- Claim C7 counterexample: on the empty grid the search neither returns a
best Candidate Result nor raises an error — it returns the Python None, an
outcome outside the claimed dichotomy, so the dichotomy does not hold for
every input. -/
theorem trainModels_result_dichotomy_cex :
    ¬ (∃ b : Candidate ℚ, trainModels exFitFailAt2 exScore ([] : List ℚ) = .ok (some b)) ∧
      ¬ ∃ e, trainModels exFitFailAt2 exScore ([] : List ℚ) = .error e := by
  constructor
  · rintro ⟨b, hb⟩
    exact Option.noConfusion (Except.ok.inj hb)
  · rintro ⟨e, he⟩
    exact Except.noConfusion he

/-- Claim C7 amended: for every non-empty grid the search either returns
exactly one best Candidate Result or raises an error (the `.error` result
carries only the error, so partial progress — earlier candidates — is never
exposed on failure); the empty grid instead returns None with no error. -/
theorem trainModels_result_dichotomy {C A : Type} (fitF : C → Except Unit A)
    (scoreF : A → Except Unit ℚ) (grid : List C) (hne : grid ≠ []) :
    (∃ b : Candidate A, trainModels fitF scoreF grid = .ok (some b)) ∨
      ∃ e, trainModels fitF scoreF grid = .error e := by
  cases grid with
  | nil => exact absurd rfl hne
  | cons c rest =>
    cases hres : trainModels fitF scoreF (c :: rest) with
    | error e => exact Or.inr ⟨e, rfl⟩
    | ok r =>
      refine Or.inl ?_
      have hsome : r.isSome := by
        unfold trainModels at hres
        cases hf : fitF c with
        | error e => simp [trainModelsAux, hf] at hres
        | ok a =>
          cases hs : scoreF a with
          | error e => simp [trainModelsAux, hf, hs] at hres
          | ok q =>
            simp only [trainModelsAux, hf, hs] at hres
            exact trainModelsAux_ok_isSome fitF scoreF rest _ _ r
              (updateBest_isSome none ⟨0, q, a⟩) hres
      obtain ⟨b, hb⟩ := Option.isSome_iff_exists.mp hsome
      exact ⟨b, by rw [hb]⟩

theorem trainModels_result_dichotomy_witness :
    (∃ b : Candidate ℚ, trainModels exFit exScore [3] = .ok (some b)) ∨
      ∃ e, trainModels exFit exScore [3] = .error e :=
  trainModels_result_dichotomy exFit exScore [3] (by decide)

/-- Claim C8: the search mutates neither the training nor the validation
dataframe.  In the state-passing rendering of `trainModels`, whose only calls
that could touch the notebook state are the two `drop` calls (made, as in the
source, with `inplace = False`) while fit/predict/accuracy are pure reads per
the library contract, the notebook state after the call equals the state
before it, for every grid. -/
theorem trainModelsSt_preserves_inputs {C A : Type} (fitF : Frame → C → Except Unit A)
    (scoreF : Frame → A → Except Unit ℚ) (grid : List C) (st : NotebookData) :
    (trainModelsSt fitF scoreF grid st).2 = st := rfl

/-- Claim C9: the spec's worked example.  With the two configurations C = 0.1
and C = 1.0 evaluating to validation accuracies 0.80 and 0.92 respectively,
the selector returns the configuration at index 1 with accuracy 0.92 (the
fitted artifact here being the configuration value itself). -/
theorem trainModels_example_selects_config1 :
    trainModels exFit exampleScore [1 / 10, 1] = .ok (some ⟨1, 23 / 25, 1⟩) := by
  norm_num [trainModels, trainModelsAux, exFit, exampleScore, updateBest]

/-- Claim C10 counterexample: the source does not fit and score every
configuration of every grid.  Under a fit that raises on the configuration
value 2, the grid with values 1, 2, 3 produces the call trace
fit 0, score 0, fit 1 and nothing else: configuration 1 is never scored and
configuration 2 is never fit, because the failure aborts the iteration. -/
theorem trainModels_visits_all_cex :
    (trainModelsT exFitFailAt2 exScore [1, 2, 3]).1 =
      [Event.fitCall 0, Event.scoreCall 0, Event.fitCall 1] := by
  decide

/-- Claim C10 amended: on every grid all of whose configurations evaluate
successfully, the loop fits and scores every configuration exactly once, in
index order 0, 1, ..., len-1, with no early exit — in particular evaluation
continues through the whole grid even after the maximum accuracy has been
observed — and the instrumented run returns exactly the result of
`trainModels`.  (When an evaluation raises, the iteration instead stops at the
failing configuration, as the counterexample shows.) -/
theorem trainModels_visits_all_in_order {C A : Type} (fitF : C → Except Unit A)
    (scoreF : A → Except Unit ℚ) (grid : List C)
    (hok : ∀ c ∈ grid, (evalConfig fitF scoreF c).isSome) :
    (trainModelsT fitF scoreF grid).1 =
        (List.range grid.length).flatMap (fun i => [Event.fitCall i, Event.scoreCall i]) ∧
      (trainModelsT fitF scoreF grid).2 = trainModels fitF scoreF grid := by
  constructor
  · have htr := trainModelsAuxT_trace fitF scoreF grid 0 none hok
    simpa [List.range_eq_range'] using htr
  · exact trainModelsAuxT_snd fitF scoreF grid 0 none

theorem trainModels_visits_all_in_order_witness :
    (trainModelsT exFit exScore [2, 1]).1 =
        (List.range ([2, 1] : List ℚ).length).flatMap
          (fun i => [Event.fitCall i, Event.scoreCall i]) ∧
      (trainModelsT exFit exScore [2, 1]).2 = trainModels exFit exScore [2, 1] :=
  trainModels_visits_all_in_order exFit exScore [2, 1] (by decide)
